import Mathlib

/-!
Verification of the flat-file record store (`src/dictionary/flat_file/flat_file.c`).

The store keeps fixed-width rows `[status : 1][key : key_size][value : value_size]`
packed contiguously from `start_of_data` (which `flat_file_initialize` sets to 0:
`ftell` right after opening, no header).  Every byte offset the C code computes is
`index * row_size` for a row index, and every division by `row_size` in the code is
exact, so the embedding works at the level of row indices over the list of rows;
each definition mirrors the corresponding C function statement by statement and is
annotated with the lines it embeds.

File writes (`fwrite`) can fail at run time; the C code receives those failures as
`err_file_incomplete_write` from `flat_file_write_row`.  Where an operation's
behaviour under a write failure is at issue, the embedding takes an oracle
`w : Nat -> Bool` giving the outcome of each successive `flat_file_write_row` call
(`true` = all its fwrites succeed, `false` = the first fwrite fails, writing
nothing).  The fault-free run is the oracle `fun _ => true`.
-/

/-- Row status tag.  Modelled from the spec: the header defining
`ion_flat_file_row_status_t` with `FLAT_FILE_STATUS_EMPTY` and
`FLAT_FILE_STATUS_OCCUPIED` is not under `src/`; the spec fixes exactly these
two states for the unsorted path. -/
inductive RowStatus where
  | empty
  | occupied
deriving DecidableEq

/-- One row: status tag, `key_size` key bytes, `value_size` value bytes
(`ion_flat_file_row_t`, with the key and value materialised as byte lists). -/
structure Row where
  row_status : RowStatus
  key : List Nat
  value : List Nat
deriving DecidableEq

instance : Inhabited Row := ⟨⟨RowStatus.empty, [], []⟩⟩

/-- The store (`ion_flat_file_t`), restricted to the fields the scanned claims
touch.  `rows` is the contents of the backing data file from `start_of_data` on,
split into rows (the file length is always a whole number of rows).
`num_buffered_pos` records the clamp in `flat_file_initialize` (lines 53-56):
`dictionary_size <= 0` is forced to 1, so every store has `num_buffered >= 1`.
The key comparator is the capability `super.compare` supplied at construction. -/
structure FlatFile where
  key_size : Nat
  value_size : Nat
  compare : List Nat → List Nat → Int
  num_buffered : Nat
  num_buffered_pos : 1 ≤ num_buffered
  sorted_mode : Bool
  rows : List Row

/-- The error codes (`ion_err_t`) this translation unit mentions. -/
inductive IonErr where
  | err_ok
  | err_item_not_found
  | err_file_hit_eof
  | err_file_read_error
  | err_file_incomplete_read
  | err_file_incomplete_write
  | err_file_bad_seek
  | err_uninitialized
deriving DecidableEq

/-- `ion_status_t`: an error code and a result count.  `ION_STATUS_INITIALIZE`
is `⟨IonErr.err_uninitialized, 0⟩`. -/
structure IonStatus where
  error : IonErr
  count : Nat
deriving DecidableEq

/-- Outcome of `flat_file_scan`: `err_ok` with the found location and row,
`err_file_hit_eof` with the location written as the total row count, or another
error (in which case the location out-parameter is not written). -/
inductive ScanResult where
  | found (location : Nat) (row : Row)
  | hitEof (location : Nat)
  | fail (e : IonErr)
deriving DecidableEq

/-- `flat_file_predicate_empty` (lines 274-284): true iff the row status is
EMPTY. -/
def flat_file_predicate_empty (flat_file : FlatFile) (row : Row) : Bool :=
  row.row_status == RowStatus.empty

/-- `flat_file_predicate_key_match` (lines 291-300): true iff the row is
OCCUPIED and the store's comparator reports equality of the target key with the
row's key. -/
def flat_file_predicate_key_match (flat_file : FlatFile) (row : Row)
    (target_key : List Nat) : Bool :=
  row.row_status == RowStatus.occupied &&
    flat_file.compare target_key row.key == 0

/-- The scanner's per-batch for-loop (lines 240-262): examine the batched rows
in ascending order and return the first one satisfying the predicate, together
with its position inside the batch (the loop counter `i`). -/
def batchFind (predicate : Row → Bool) : List Row → Option (Nat × Row)
  | [] => none
  | row :: rest =>
      if predicate row then some (0, row)
      else
        match batchFind predicate rest with
        | some (i, r) => some (i + 1, r)
        | none => none

/-- The rows a bulk `fread` of `n` records at row offset `base` returns
(possibly fewer than `n` near end of file). -/
def batchRows (f : FlatFile) (base n : Nat) : List Row :=
  (f.rows.drop base).take n

/-- Forward direction of the `while (cur_offset != end_offset)` loop of
`flat_file_scan` (lines 197-263 with `scan_forwards` true): `curIdx` is
`cur_offset / row_size` and the loop's end offset is `eof_pos`, i.e. row index
`f.rows.length`.  Each pass bulk-reads up to `num_buffered` rows; `fread`
returns `min num_buffered (length - curIdx)` records there, and reading zero
records is `err_file_incomplete_read` (lines 210-211).  On a predicate match
the location is `prev_offset / row_size + i` = `curIdx + i` (line 259). -/
def scanForwardAux (f : FlatFile) (predicate : Row → Bool) (curIdx : Nat) :
    ScanResult :=
  if curIdx = f.rows.length then ScanResult.hitEof f.rows.length
  else
    if min f.num_buffered (f.rows.length - curIdx) = 0 then
      ScanResult.fail IonErr.err_file_incomplete_read
    else
      match batchFind predicate
          (batchRows f curIdx (min f.num_buffered (f.rows.length - curIdx))) with
      | some (i, r) => ScanResult.found (curIdx + i) r
      | none =>
          scanForwardAux f predicate
            (curIdx + min f.num_buffered (f.rows.length - curIdx))
termination_by f.rows.length - curIdx
decreasing_by
  omega

/-- Backward direction of the scan loop (lines 197-263 with `scan_forwards`
false): the end offset is `start_of_data`, i.e. row index 0.  Each pass moves
`cur_offset` back by `row_size * num_buffered`, clamping at `start_of_data` and
shrinking the batch to `num_buffered - (start_of_data - cur_offset) / row_size`
= `curIdx` records when it would underrun (lines 219-226); the batch is then
read in full (`fread` must return exactly that many records, line 232) and
examined in ascending order, a match reporting `prev_offset / row_size + i` =
`newIdx + i`. -/
def scanBackwardAux (f : FlatFile) (predicate : Row → Bool) (curIdx : Nat) :
    ScanResult :=
  if curIdx = 0 then ScanResult.hitEof f.rows.length
  else
    if min (min f.num_buffered curIdx)
        (f.rows.length - (curIdx - min f.num_buffered curIdx)) ≠
        min f.num_buffered curIdx then
      ScanResult.fail IonErr.err_file_incomplete_read
    else
      match batchFind predicate
          (batchRows f (curIdx - min f.num_buffered curIdx)
            (min f.num_buffered curIdx)) with
      | some (i, r) =>
          ScanResult.found (curIdx - min f.num_buffered curIdx + i) r
      | none => scanBackwardAux f predicate (curIdx - min f.num_buffered curIdx)
termination_by curIdx
decreasing_by
  have h1 := f.num_buffered_pos
  omega

/-- Lines 178-188 of `flat_file_scan`: `start_location` is a row index, or the
sentinel -1 meaning start of data when scanning forwards and end of file when
scanning backwards; the result is `cur_offset / row_size` for the initial
`cur_offset`. -/
def resolved_start (f : FlatFile) (start_location : Int)
    (scan_forwards : Bool) : Int :=
  if start_location = -1 then (if scan_forwards then 0 else (f.rows.length : Int))
  else start_location

/-- `flat_file_scan` (lines 158-268), continued: the scan fails with
`err_file_read_error` when the resolved start offset lies outside
`[start_of_data, eof_pos]` (lines 190-192), and otherwise runs the batched
loop in the requested direction from the resolved start index. -/
def flat_file_scan (f : FlatFile) (start_location : Int) (scan_forwards : Bool)
    (predicate : Row → Bool) : ScanResult :=
  if resolved_start f start_location scan_forwards > (f.rows.length : Int) ∨
      resolved_start f start_location scan_forwards < 0 then
    ScanResult.fail IonErr.err_file_read_error
  else if scan_forwards then
    scanForwardAux f predicate (resolved_start f start_location scan_forwards).toNat
  else
    scanBackwardAux f predicate (resolved_start f start_location scan_forwards).toNat

/-- `flat_file_write_row` (lines 318-341), effect on the file contents: seek to
`location * row_size` and write the status byte, then the key bytes unless the
key is NULL, then the value bytes unless the value is NULL (a NULL key with a
non-NULL value is forbidden by the function's contract).  Every caller in this
translation unit passes a `location` at most the current row count; writing at
`location = rows.length` starts at the end-of-file offset and appends a row. -/
def write_row_list (rows : List Row) (location : Nat) (row_status : RowStatus)
    (key value : Option (List Nat)) : List Row :=
  if h : location < rows.length then
    let old := rows.get ⟨location, h⟩
    rows.set location ⟨row_status, key.getD old.key, value.getD old.value⟩
  else
    rows ++ [⟨row_status, key.getD [], value.getD []⟩]

/-- `flat_file_write_row` as a store transformer (the data file is the only
state it touches). -/
def flat_file_write_row (f : FlatFile) (location : Nat) (row_status : RowStatus)
    (key value : Option (List Nat)) : FlatFile :=
  { f with rows := write_row_list f.rows location row_status key value }

/-- A status-or-in-place write keeps the file length. -/
theorem write_row_list_length (rows : List Row) (location : Nat)
    (row_status : RowStatus) (key value : Option (List Nat))
    (h : location < rows.length) :
    (write_row_list rows location row_status key value).length = rows.length := by
  simp [write_row_list, h]

/-- The batch for-loop reports a position inside the batch. -/
theorem batchFind_some_lt (p : Row → Bool) :
    ∀ (l : List Row) (i : Nat) (r : Row),
      batchFind p l = some (i, r) → i < l.length := by
  intro l
  induction l with
  | nil => intro i r h; simp [batchFind] at h
  | cons row rest ih =>
      intro i r h
      simp only [batchFind] at h
      by_cases hp : p row
      · rw [if_pos hp] at h
        simp only [Option.some.injEq, Prod.mk.injEq] at h
        obtain ⟨h1, h2⟩ := h
        simp only [List.length_cons]
        omega
      · rw [if_neg (by simp [hp])] at h
        cases hb : batchFind p rest with
        | none => rw [hb] at h; simp at h
        | some ir =>
            obtain ⟨j, r2⟩ := ir
            rw [hb] at h
            simp only [Option.some.injEq, Prod.mk.injEq] at h
            obtain ⟨h1, h2⟩ := h
            have := ih j r2 hb
            simp only [List.length_cons]
            omega

/-- A forward scan only finds locations from its start (inclusive) up to the
last valid row; this bounds the delete/update re-scan loops. -/
theorem scanForwardAux_found_bounds (f : FlatFile) (p : Row → Bool) :
    ∀ (k s m : Nat) (r : Row), f.rows.length - s = k →
      scanForwardAux f p s = ScanResult.found m r →
      s ≤ m ∧ m < f.rows.length := by
  intro k
  induction k using Nat.strong_induction_on with
  | _ k ih =>
      intro s m r hk h
      rw [scanForwardAux] at h
      by_cases h1 : s = f.rows.length
      · simp [h1] at h
      · simp only [h1, if_false] at h
        by_cases h2 : min f.num_buffered (f.rows.length - s) = 0
        · simp [h2] at h
        · simp only [h2, if_false] at h
          cases hb : batchFind p
              (batchRows f s (min f.num_buffered (f.rows.length - s))) with
          | some ir =>
              rw [hb] at h
              simp at h
              have hlt := batchFind_some_lt p _ ir.1 ir.2 (by rw [hb])
              simp [batchRows, List.length_take, List.length_drop] at hlt
              omega
          | none =>
              rw [hb] at h
              have hdec : f.rows.length - (s + min f.num_buffered (f.rows.length - s)) < k := by
                omega
              have := ih _ hdec (s + min f.num_buffered (f.rows.length - s)) m r rfl h
              omega

/-- Bounds for a forward `flat_file_scan` that found a row: the location is at
least the (resolved) start index and below the row count. -/
theorem flat_file_scan_forward_found_bounds (f : FlatFile) (p : Row → Bool)
    (loc : Int) (m : Nat) (r : Row)
    (h : flat_file_scan f loc true p = ScanResult.found m r) :
    loc.toNat ≤ m ∧ m < f.rows.length := by
  rw [flat_file_scan] at h
  split at h
  · simp at h
  · rw [if_pos rfl] at h
    have hb := scanForwardAux_found_bounds f p _ _ m r rfl h
    have hres : (resolved_start f loc true).toNat ≤ m := hb.1
    by_cases hs : loc = -1
    · subst hs
      exact ⟨Nat.zero_le m, hb.2⟩
    · rw [resolved_start, if_neg hs] at hres
      exact ⟨hres, hb.2⟩

/-- `flat_file_insert` (lines 343-373), with the outcome of its single
`flat_file_write_row` call supplied by `write_ok`: forward scan from the
natural start for an EMPTY row; `err_file_hit_eof` is not an error and leaves
the append location (the row count) in `insert_loc`; then write an OCCUPIED
row with the given key and value there.  The sorted-mode block (lines 366-368)
is an empty TODO. -/
def flat_file_insertF (f : FlatFile) (key value : List Nat) (write_ok : Bool) :
    IonStatus × FlatFile :=
  match flat_file_scan f (-1) true (fun row => flat_file_predicate_empty f row) with
  | ScanResult.fail e => (⟨e, 0⟩, f)
  | ScanResult.found insert_loc _ =>
      if write_ok then
        (⟨IonErr.err_ok, 1⟩,
          flat_file_write_row f insert_loc RowStatus.occupied (some key) (some value))
      else (⟨IonErr.err_file_incomplete_write, 0⟩, f)
  | ScanResult.hitEof insert_loc =>
      if write_ok then
        (⟨IonErr.err_ok, 1⟩,
          flat_file_write_row f insert_loc RowStatus.occupied (some key) (some value))
      else (⟨IonErr.err_file_incomplete_write, 0⟩, f)

/-- `flat_file_insert` in a fault-free run. -/
def flat_file_insert (f : FlatFile) (key value : List Nat) :
    IonStatus × FlatFile :=
  flat_file_insertF f key value true

/-- The repeated-match loop of `flat_file_delete` (lines 423-428), with the
`w`-th oracle entry giving the outcome of the `w`-th `flat_file_write_row`
call: while the forward scan from `loc` finds a key match, issue a status-only
write of EMPTY at the found location — the C code discards this call's return
value — bump the count, and resume one past the match.  Loop exit translates
the scan error exactly as lines 430-437: `err_file_hit_eof` with zero matches
becomes `err_item_not_found`, with matches it is success, and any other scan
error is stored as is. -/
def flat_file_delete_loop (key : List Nat) (w : Nat → Bool) (f : FlatFile)
    (loc : Int) (count : Nat) (wi : Nat) : IonStatus × FlatFile :=
  match h : flat_file_scan f loc true
      (fun row => flat_file_predicate_key_match f row key) with
  | ScanResult.found m row0 =>
      flat_file_delete_loop key w
        (if w wi then flat_file_write_row f m RowStatus.empty none none else f)
        ((m : Int) + 1) (count + 1) (wi + 1)
  | ScanResult.hitEof _ =>
      (⟨if count = 0 then IonErr.err_item_not_found else IonErr.err_ok, count⟩, f)
  | ScanResult.fail e => (⟨e, count⟩, f)
termination_by f.rows.length + 1 - loc.toNat
decreasing_by
  have hb := flat_file_scan_forward_found_bounds f
    (fun row => flat_file_predicate_key_match f row key) loc m row0 h
  split
  · have hlen : (flat_file_write_row f m RowStatus.empty none none).rows.length =
        f.rows.length := write_row_list_length _ _ _ _ _ hb.2
    omega
  · omega

/-- `flat_file_delete` (lines 411-446) with a write-outcome oracle.  In sorted
mode the function body is an empty TODO and the initialized status
(`err_uninitialized`, count 0) falls through. -/
def flat_file_deleteF (f : FlatFile) (key : List Nat) (w : Nat → Bool) :
    IonStatus × FlatFile :=
  if f.sorted_mode then (⟨IonErr.err_uninitialized, 0⟩, f)
  else flat_file_delete_loop key w f (-1) 0 0

/-- `flat_file_delete` in a fault-free run. -/
def flat_file_delete (f : FlatFile) (key : List Nat) : IonStatus × FlatFile :=
  flat_file_deleteF f key (fun _ => true)

/-- The repeated-match loop of `flat_file_update` (lines 461-466), with a
write-outcome oracle: identical to the delete loop except each match is
rewritten OCCUPIED with the target key and new value (the write's return value
again discarded).  Loop exit (lines 468-478): `err_file_hit_eof` with zero
matches falls back to `flat_file_insert` (upsert), with matches it is success,
and any other scan error is stored as is. -/
def flat_file_update_loop (key value : List Nat) (w : Nat → Bool) (f : FlatFile)
    (loc : Int) (count : Nat) (wi : Nat) : IonStatus × FlatFile :=
  match h : flat_file_scan f loc true
      (fun row => flat_file_predicate_key_match f row key) with
  | ScanResult.found m row0 =>
      flat_file_update_loop key value w
        (if w wi then
          flat_file_write_row f m RowStatus.occupied (some key) (some value)
        else f)
        ((m : Int) + 1) (count + 1) (wi + 1)
  | ScanResult.hitEof _ =>
      if count = 0 then flat_file_insertF f key value (w wi)
      else (⟨IonErr.err_ok, count⟩, f)
  | ScanResult.fail e => (⟨e, count⟩, f)
termination_by f.rows.length + 1 - loc.toNat
decreasing_by
  have hb := flat_file_scan_forward_found_bounds f
    (fun row => flat_file_predicate_key_match f row key) loc m row0 h
  split
  · have hlen : (flat_file_write_row f m RowStatus.occupied (some key)
        (some value)).rows.length = f.rows.length :=
      write_row_list_length _ _ _ _ _ hb.2
    omega
  · omega

/-- `flat_file_update` (lines 448-485) with a write-outcome oracle (sorted
mode as in `flat_file_deleteF`). -/
def flat_file_updateF (f : FlatFile) (key value : List Nat) (w : Nat → Bool) :
    IonStatus × FlatFile :=
  if f.sorted_mode then (⟨IonErr.err_uninitialized, 0⟩, f)
  else flat_file_update_loop key value w f (-1) 0 0

/-- `flat_file_update` in a fault-free run. -/
def flat_file_update (f : FlatFile) (key value : List Nat) :
    IonStatus × FlatFile :=
  flat_file_updateF f key value (fun _ => true)

/-- `flat_file_get` (lines 375-409): forward scan from the natural start for an
exact key match; on success the matched row's value bytes are copied out and
the count is 1; `err_file_hit_eof` is aliased to `err_item_not_found`
(lines 391-395).  The middle component is the copied-out value; the store is
threaded through unchanged — the function has no write path.  In sorted mode
the body is an empty TODO and the initialized status falls through. -/
def flat_file_get (f : FlatFile) (key : List Nat) :
    IonStatus × Option (List Nat) × FlatFile :=
  if f.sorted_mode then (⟨IonErr.err_uninitialized, 0⟩, none, f)
  else
    match flat_file_scan f (-1) true
        (fun row => flat_file_predicate_key_match f row key) with
    | ScanResult.found _ row => (⟨IonErr.err_ok, 1⟩, some row.value, f)
    | ScanResult.hitEof _ => (⟨IonErr.err_item_not_found, 0⟩, none, f)
    | ScanResult.fail e => (⟨e, 0⟩, none, f)

/-- The row at index `i` (reading convenience for the statements below). -/
def rowAt (f : FlatFile) (i : Nat) : Row :=
  f.rows.getD i default

/-- How many rows of the file currently match `key` under the store's
comparator (the exact-key predicate). -/
def numMatches (f : FlatFile) (key : List Nat) : Nat :=
  f.rows.countP (fun row => flat_file_predicate_key_match f row key)

/-- The slot `flat_file_insert` writes to: position of the first EMPTY row, or
the row count (append) when none is EMPTY. -/
def insert_loc_spec (f : FlatFile) : Nat :=
  match batchFind (fun row => flat_file_predicate_empty f row) f.rows with
  | some (i, _) => i
  | none => f.rows.length

/-- The file contents after a delete of `key`: every matching row tombstoned
(status EMPTY, key and value bytes untouched), every other row unchanged. -/
def tombstoned (f : FlatFile) (key : List Nat) : List Row :=
  f.rows.map (fun row =>
    if flat_file_predicate_key_match f row key then
      { row with row_status := RowStatus.empty }
    else row)

/-- The file contents after an update of `key` to `value` with at least one
match: every matching row rewritten `⟨OCCUPIED, key, value⟩`, every other row
unchanged. -/
def rewritten (f : FlatFile) (key value : List Nat) : List Row :=
  f.rows.map (fun row =>
    if flat_file_predicate_key_match f row key then
      ⟨RowStatus.occupied, key, value⟩
    else row)

/-- The batch for-loop falls through exactly when no batched row satisfies the
predicate. -/
theorem batchFind_eq_none (p : Row → Bool) (l : List Row) :
    batchFind p l = none ↔ ∀ r ∈ l, p r = false := by
  induction l with
  | nil => simp [batchFind]
  | cons row rest ih =>
      rw [batchFind]
      by_cases hp : p row
      · simp [hp]
      · rw [if_neg (by simp [hp])]
        cases hb : batchFind p rest with
        | none =>
            simp only [List.mem_cons]
            constructor
            · intro _ r hr
              rcases hr with hr | hr
              · subst hr; simpa using hp
              · exact (ih.mp hb) r hr
            · intro _; trivial
        | some ir =>
            simp only [List.mem_cons]
            constructor
            · intro hc; exact absurd hc (by simp)
            · intro hall
              have : batchFind p rest = none := ih.mpr (fun r hr => hall r (Or.inr hr))
              rw [this] at hb
              exact absurd hb (by simp)

/-- What a successful batch for-loop reports: the row at the reported position,
satisfying the predicate, with every earlier batched row failing it (the loop
short-circuits on the first match). -/
theorem batchFind_some_spec (p : Row → Bool) :
    ∀ (l : List Row) (i : Nat) (r : Row), batchFind p l = some (i, r) →
      i < l.length ∧ l.getD i default = r ∧ p r = true ∧
        ∀ j, j < i → p (l.getD j default) = false := by
  intro l
  induction l with
  | nil => intro i r h; simp [batchFind] at h
  | cons row rest ih =>
      intro i r h
      rw [batchFind] at h
      by_cases hp : p row
      · rw [if_pos hp] at h
        simp only [Option.some.injEq, Prod.mk.injEq] at h
        obtain ⟨h1, h2⟩ := h
        subst h2
        refine ⟨by simp [← h1], by simp [← h1], hp, ?_⟩
        intro j hj
        omega
      · rw [if_neg (by simp [hp])] at h
        cases hb : batchFind p rest with
        | none => rw [hb] at h; simp at h
        | some ir =>
            obtain ⟨j, r2⟩ := ir
            rw [hb] at h
            simp only [Option.some.injEq, Prod.mk.injEq] at h
            obtain ⟨h1, h2⟩ := h
            subst h2
            obtain ⟨ih1, ih2, ih3, ih4⟩ := ih j r2 hb
            refine ⟨by simp only [List.length_cons]; omega, ?_, ih3, ?_⟩
            · rw [← h1]; simpa using ih2
            · intro j2 hj2
              rcases Nat.eq_zero_or_pos j2 with hz | hz
              · subst hz; simpa using hp
              · have : j2 - 1 < j := by omega
                have := ih4 (j2 - 1) this
                rw [show j2 = (j2 - 1) + 1 by omega]
                simpa using this

/-- Converse direction: the first matching position determines the loop's
result. -/
theorem batchFind_of_first (p : Row → Bool) :
    ∀ (l : List Row) (m : Nat), m < l.length → p (l.getD m default) = true →
      (∀ j, j < m → p (l.getD j default) = false) →
      batchFind p l = some (m, l.getD m default) := by
  intro l
  induction l with
  | nil => intro m hm; simp at hm
  | cons row rest ih =>
      intro m hm hp hlow
      rw [batchFind]
      rcases Nat.eq_zero_or_pos m with hz | hz
      · subst hz
        rw [if_pos (by simpa using hp)]
        simp
      · obtain ⟨m2, rfl⟩ : ∃ m2, m = m2 + 1 := ⟨m - 1, by omega⟩
        have h0 : p row = false := by simpa using hlow 0 (by omega)
        rw [if_neg (by simp [h0])]
        have hm2 : m2 < rest.length := by
          simp only [List.length_cons] at hm; omega
        have hp2 : p (rest.getD m2 default) = true := by simpa using hp
        have hlow2 : ∀ j, j < m2 → p (rest.getD j default) = false := by
          intro j hj
          simpa using hlow (j + 1) (by omega)
        rw [ih m2 hm2 hp2 hlow2]
        simp

/-- Splitting a batch: the loop searches the front first and shifts positions
found in the back by the front's length. -/
theorem batchFind_append (p : Row → Bool) (a b : List Row) :
    batchFind p (a ++ b) =
      match batchFind p a with
      | some ir => some ir
      | none => (batchFind p b).map (fun ir => (a.length + ir.1, ir.2)) := by
  induction a with
  | nil =>
      simp only [List.nil_append, batchFind, List.length_nil]
      cases hb : batchFind p b with
      | none => simp
      | some ir => simp
  | cons row rest ih =>
      rw [List.cons_append, batchFind]
      by_cases hp : p row
      · rw [if_pos hp, batchFind, if_pos hp]
      · rw [if_neg (by simp [hp]), ih, batchFind, if_neg (by simp [hp])]
        cases hr : batchFind p rest with
        | some ir => simp
        | none =>
            cases hb : batchFind p b with
            | none => simp
            | some ir => simp [List.length_cons]; omega

/-- `getD` through `drop`. -/
theorem getD_drop (l : List Row) (s : Nat) (i : Nat) (d : Row) :
    (l.drop s).getD i d = l.getD (s + i) d := by
  induction s generalizing l with
  | zero => simp
  | succ s ih =>
      cases l with
      | nil => simp
      | cons a t =>
          rw [List.drop_succ_cons, ih t]
          simp [Nat.succ_add]

/-- The batch read at `base` followed by the rest of the file reassembles the
file's tail. -/
theorem drop_eq_batch_append (f : FlatFile) (s n : Nat) :
    f.rows.drop s = batchRows f s n ++ f.rows.drop (s + n) := by
  rw [batchRows, ← List.drop_drop]
  exact (List.take_append_drop _ _).symm

/-- Length of a bulk read: `min` of the request and the rows left. -/
theorem batchRows_length (f : FlatFile) (s n : Nat) :
    (batchRows f s n).length = min n (f.rows.length - s) := by
  simp [batchRows]

/-- The forward batched scan is a linear search of the file's tail from the
start index: it reports the first matching index at or after `s` (with that
row), or end of data with the total row count. -/
theorem scanForwardAux_eq (f : FlatFile) (p : Row → Bool) :
    ∀ (k s : Nat), f.rows.length - s = k → s ≤ f.rows.length →
      scanForwardAux f p s =
        (match batchFind p (f.rows.drop s) with
         | some (i, r) => ScanResult.found (s + i) r
         | none => ScanResult.hitEof f.rows.length) := by
  intro k
  induction k using Nat.strong_induction_on with
  | _ k ih =>
      intro s hk hs
      rw [scanForwardAux]
      by_cases h1 : s = f.rows.length
      · subst h1
        simp [batchFind]
      · rw [if_neg h1]
        have hnb := f.num_buffered_pos
        have hn0 : ¬ min f.num_buffered (f.rows.length - s) = 0 := by omega
        rw [if_neg hn0]
        conv_rhs =>
          rw [drop_eq_batch_append f s (min f.num_buffered (f.rows.length - s)),
            batchFind_append]
        cases hb : batchFind p
            (batchRows f s (min f.num_buffered (f.rows.length - s))) with
        | some ir =>
            obtain ⟨i, r⟩ := ir
            rfl
        | none =>
            rw [ih (f.rows.length - (s + min f.num_buffered (f.rows.length - s)))
              (by omega) _ rfl (by omega)]
            cases hb2 : batchFind p
                (f.rows.drop (s + min f.num_buffered (f.rows.length - s))) with
            | none => rfl
            | some ir2 =>
                obtain ⟨i2, r2⟩ := ir2
                show ScanResult.found
                    (s + min f.num_buffered (f.rows.length - s) + i2) r2 =
                  ScanResult.found
                    (s + ((batchRows f s
                      (min f.num_buffered (f.rows.length - s))).length + i2)) r2
                rw [batchRows_length]
                congr 1
                omega

/-- A forward `flat_file_scan` from the sentinel or from a valid start index is
the linear search of the file's tail from the resolved start index. -/
theorem flat_file_scan_forward_eq (f : FlatFile) (p : Row → Bool) (loc : Int)
    (h : loc = -1 ∨ (0 ≤ loc ∧ loc ≤ (f.rows.length : Int))) :
    flat_file_scan f loc true p =
      (match batchFind p (f.rows.drop loc.toNat) with
       | some (i, r) => ScanResult.found (loc.toNat + i) r
       | none => ScanResult.hitEof f.rows.length) := by
  rw [flat_file_scan, resolved_start]
  rcases h with h | h
  · subst h
    rw [if_pos rfl, if_pos rfl]
    rw [if_neg (by omega)]
    rw [if_pos rfl]
    have h0 : ((-1 : Int)).toNat = 0 := rfl
    rw [h0]
    exact scanForwardAux_eq f p _ _ rfl (by omega)
  · rw [if_neg (by omega : ¬ loc = -1)]
    rw [if_neg (by omega)]
    rw [if_pos rfl]
    exact scanForwardAux_eq f p _ _ rfl (by omega)

/-- Every row of a batch read at `base` is a row of the file at an index in
`[base, base + n)`. -/
theorem batchRows_mem (f : FlatFile) (base n : Nat) (r : Row)
    (hr : r ∈ batchRows f base n) :
    ∃ j, j < n ∧ base + j < f.rows.length ∧ f.rows.getD (base + j) default = r := by
  obtain ⟨j, hj, hjr⟩ := List.mem_iff_getElem.mp hr
  simp only [batchRows] at hj hjr
  have hjlen : j < (f.rows.drop base).length := by
    have := List.length_take_le n (f.rows.drop base)
    have h2 : ((f.rows.drop base).take n).length = min n (f.rows.drop base).length := by
      simp
    omega
  have hjn : j < n := by
    have h2 : ((f.rows.drop base).take n).length = min n (f.rows.drop base).length := by
      simp
    omega
  refine ⟨j, hjn, ?_, ?_⟩
  · simp only [List.length_drop] at hjlen
    omega
  · rw [List.getElem_take] at hjr
    rw [List.getElem_drop] at hjr
    rw [List.getD_eq_getElem?_getD, List.getElem?_eq_getElem (by
      simp only [List.length_drop] at hjlen; omega : base + j < f.rows.length)]
    simpa using hjr

/-- A backward batched scan over a prefix none of whose rows satisfy the
predicate falls through to end of data, reporting the total row count. -/
theorem scanBackwardAux_no_match (f : FlatFile) (p : Row → Bool) :
    ∀ (s : Nat), s ≤ f.rows.length →
      (∀ i, i < s → p (f.rows.getD i default) = false) →
      scanBackwardAux f p s = ScanResult.hitEof f.rows.length := by
  intro s
  induction s using Nat.strong_induction_on with
  | _ s ih =>
      intro hs hnm
      rw [scanBackwardAux]
      by_cases h0 : s = 0
      · rw [if_pos h0]
      · rw [if_neg h0]
        have hnb := f.num_buffered_pos
        rw [if_neg (by omega)]
        have hbf : batchFind p
            (batchRows f (s - min f.num_buffered s) (min f.num_buffered s)) = none := by
          rw [batchFind_eq_none]
          intro r hr
          obtain ⟨j, hj, hjlt, hjr⟩ := batchRows_mem f _ _ r hr
          rw [← hjr]
          exact hnm _ (by omega)
        rw [hbf]
        show scanBackwardAux f p (s - min f.num_buffered s) =
          ScanResult.hitEof f.rows.length
        exact ih _ (by omega) (by omega) (fun i hi => hnm i (by omega))

/-- With a single-row buffer the backward batched scan is a true reverse
linear search: it finds the highest matching index below its start. -/
theorem scanBackwardAux_nb1_found (f : FlatFile) (p : Row → Bool)
    (hnb : f.num_buffered = 1) :
    ∀ (s m : Nat), s ≤ f.rows.length → m < s →
      p (f.rows.getD m default) = true →
      (∀ j, m < j → j < s → p (f.rows.getD j default) = false) →
      scanBackwardAux f p s = ScanResult.found m (f.rows.getD m default) := by
  intro s
  induction s using Nat.strong_induction_on with
  | _ s ih =>
      intro m hs hm hp hhigh
      rw [scanBackwardAux]
      rw [if_neg (by omega)]
      rw [hnb]
      rw [show min 1 s = 1 by omega]
      rw [if_neg (by omega)]
      have hbatch : batchRows f (s - 1) 1 = [f.rows.getD (s - 1) default] := by
        rw [batchRows]
        rw [List.drop_eq_getElem_cons (by omega : s - 1 < f.rows.length)]
        rw [List.take_succ_cons, List.take_zero]
        rw [List.getD_eq_getElem?_getD,
          List.getElem?_eq_getElem (by omega : s - 1 < f.rows.length)]
        rfl
      rw [hbatch]
      by_cases hlast : m = s - 1
      · subst hlast
        rw [batchFind, if_pos hp]
        show ScanResult.found (s - 1 + 0) _ = _
        rw [Nat.add_zero]
      · have hplast : p (f.rows.getD (s - 1) default) = false :=
          hhigh (s - 1) (by omega) (by omega)
        rw [batchFind, if_neg (by
          simp only [List.getD_eq_getElem?_getD] at hplast
          simp [hplast]), batchFind]
        show scanBackwardAux f p (s - 1) = _
        exact ih (s - 1) (by omega) m (by omega) (by omega) hp
          (fun j hj1 hj2 => hhigh j hj1 (by omega))

/-- Replacing the file contents leaves the comparator, and hence the key-match
predicate, untouched. -/
theorem predicate_key_match_write_row (f : FlatFile) (loc : Nat)
    (st : RowStatus) (k v : Option (List Nat)) (row : Row) (key : List Nat) :
    flat_file_predicate_key_match (flat_file_write_row f loc st k v) row key =
      flat_file_predicate_key_match f row key := rfl

/-- Rows strictly after an in-place write are untouched. -/
theorem write_row_list_drop (rows : List Row) (loc : Nat) (st : RowStatus)
    (k v : Option (List Nat)) (s : Nat) (hloc : loc < rows.length)
    (hs : loc < s) :
    (write_row_list rows loc st k v).drop s = rows.drop s := by
  rw [write_row_list, dif_pos hloc]
  apply List.ext_getElem?
  intro n
  rw [List.getElem?_drop, List.getElem?_drop]
  exact List.getElem?_set_ne (by omega)

/-- Splitting the match count of a tail at its first match. -/
theorem countP_drop_first_match (p : Row → Bool) (l : List Row) (s i : Nat)
    (r : Row) (hb : batchFind p (l.drop s) = some (i, r)) :
    (l.drop s).countP p = 1 + (l.drop (s + i + 1)).countP p := by
  obtain ⟨hilen, hgetD, hpr, hlow⟩ := batchFind_some_spec p (l.drop s) i r hb
  have hslen : s + i < l.length := by
    simp only [List.length_drop] at hilen; omega
  have hsplit : l.drop s = (l.drop s).take i ++ (l.drop s).drop i :=
    (List.take_append_drop _ _).symm
  have hdd : (l.drop s).drop i = l.drop (s + i) := List.drop_drop i s l
  have hcons : l.drop (s + i) = l[s + i] :: l.drop (s + i + 1) :=
    List.drop_eq_getElem_cons hslen
  have hcount0 : ((l.drop s).take i).countP p = 0 := by
    rw [List.countP_eq_zero]
    intro a ha
    obtain ⟨j, hj, hja⟩ := List.mem_iff_getElem.mp ha
    have hjlen : j < i := by
      have h2 : ((l.drop s).take i).length = min i (l.drop s).length := by simp
      omega
    have hjd : j < (l.drop s).length := by
      have h2 : ((l.drop s).take i).length = min i (l.drop s).length := by simp
      omega
    rw [List.getElem_take] at hja
    have hgd : (l.drop s).getD j default = a := by
      rw [List.getD_eq_getElem?_getD, List.getElem?_eq_getElem hjd]
      simpa using hja
    have hlj := hlow j hjlen
    rw [getD_drop] at hlj
    rw [← hgd, getD_drop, hlj]
    simp
  have hgp2 : l.getD (s + i) default = l[s + i] := by
    rw [List.getD_eq_getElem?_getD, List.getElem?_eq_getElem hslen]
    rfl
  have hgp : p (l[s + i]) = true := by
    rw [← hgp2, ← getD_drop, hgetD]
    exact hpr
  calc (l.drop s).countP p
      = ((l.drop s).take i).countP p + ((l.drop s).drop i).countP p := by
        rw [← List.countP_append, ← hsplit]
    _ = (l.drop (s + i)).countP p := by rw [hcount0, hdd]; omega
    _ = (l[s + i] :: l.drop (s + i + 1)).countP p := by rw [← hcons]
    _ = 1 + (l.drop (s + i + 1)).countP p := by
        rw [List.countP_cons_of_pos _ _ (by simpa using hgp)]
        omega

/-- Status computed by the delete loop from a valid start: the count is the
number of matching rows at or after the start index and the error depends only
on whether that total is zero.  The statement holds for **every** write-outcome
oracle `w`, because lines 423-428 discard `flat_file_write_row`'s return value:
write failures change neither the error nor the count. -/
theorem flat_file_delete_loop_status (key : List Nat) (w : Nat → Bool) :
    ∀ (d : Nat) (f : FlatFile) (loc : Int) (count wi : Nat),
      f.rows.length + 1 - loc.toNat = d →
      (loc = -1 ∨ (0 ≤ loc ∧ loc ≤ (f.rows.length : Int))) →
      (flat_file_delete_loop key w f loc count wi).1 =
        ⟨if count + (f.rows.drop loc.toNat).countP
              (fun row => flat_file_predicate_key_match f row key) = 0 then
            IonErr.err_item_not_found
          else IonErr.err_ok,
          count + (f.rows.drop loc.toNat).countP
            (fun row => flat_file_predicate_key_match f row key)⟩ := by
  intro d
  induction d using Nat.strong_induction_on with
  | _ d ih =>
      intro f loc count wi hd hvalid
      have hscan := flat_file_scan_forward_eq f
        (fun row => flat_file_predicate_key_match f row key) loc hvalid
      rw [flat_file_delete_loop]
      cases hbf : batchFind (fun row => flat_file_predicate_key_match f row key)
          (f.rows.drop loc.toNat) with
      | none =>
          rw [hbf] at hscan
          have hcount : (f.rows.drop loc.toNat).countP
              (fun row => flat_file_predicate_key_match f row key) = 0 := by
            rw [List.countP_eq_zero]
            intro a ha
            simp [(batchFind_eq_none _ _).mp hbf a ha]
          split
          · next m row0 heq => rw [hscan] at heq; simp at heq
          · next l2 heq => simp [hcount]
          · next e heq => rw [hscan] at heq; simp at heq
      | some ir =>
          obtain ⟨i, r⟩ := ir
          rw [hbf] at hscan
          have hilen := (batchFind_some_spec _ _ _ _ hbf).1
          have hkcount := countP_drop_first_match _ _ _ _ _ hbf
          have hmlen : loc.toNat + i < f.rows.length := by
            simp only [List.length_drop] at hilen; omega
          split
          · next m row0 heq =>
              rw [hscan] at heq
              have hm : loc.toNat + i = m ∧ r = row0 := by
                simpa [ScanResult.found.injEq] using heq
              obtain ⟨hm1, hm2⟩ := hm
              subst hm1
              have h2 : (((loc.toNat + i : Nat) : Int) + 1).toNat =
                  loc.toNat + i + 1 := by omega
              by_cases hw : w wi = true
              case neg =>
                rw [if_neg hw]
                rw [ih (f.rows.length + 1 - (loc.toNat + i + 1)) (by omega) f
                  (((loc.toNat + i : Nat) : Int) + 1) (count + 1) (wi + 1)
                  (by rw [h2]) (Or.inr ⟨by omega, by omega⟩)]
                rw [h2, hkcount]
                have harith : count + 1 +
                    (f.rows.drop (loc.toNat + i + 1)).countP
                      (fun row => flat_file_predicate_key_match f row key) =
                    count + (1 + (f.rows.drop (loc.toNat + i + 1)).countP
                      (fun row => flat_file_predicate_key_match f row key)) := by
                  omega
                rw [harith]
              case pos =>
                rw [hw, if_pos rfl]
                have hglen : (flat_file_write_row f (loc.toNat + i)
                    RowStatus.empty none none).rows.length = f.rows.length :=
                  write_row_list_length _ _ _ _ _ hmlen
                rw [ih (f.rows.length + 1 - (loc.toNat + i + 1)) (by omega)
                  (flat_file_write_row f (loc.toNat + i) RowStatus.empty none none)
                  (((loc.toNat + i : Nat) : Int) + 1) (count + 1) (wi + 1)
                  (by rw [h2]; omega) (Or.inr ⟨by omega, by omega⟩)]
                have h3 : (flat_file_write_row f (loc.toNat + i)
                      RowStatus.empty none none).rows.drop
                      ((((loc.toNat + i : Nat) : Int) + 1).toNat) =
                    f.rows.drop (loc.toNat + i + 1) := by
                  rw [h2]
                  exact write_row_list_drop _ _ _ _ _ _ hmlen (by omega)
                rw [h3]
                have h4 : (fun row => flat_file_predicate_key_match
                      (flat_file_write_row f (loc.toNat + i) RowStatus.empty
                        none none) row key) =
                    (fun row => flat_file_predicate_key_match f row key) := rfl
                rw [h4, hkcount]
                have harith : count + 1 +
                    (f.rows.drop (loc.toNat + i + 1)).countP
                      (fun row => flat_file_predicate_key_match f row key) =
                    count + (1 + (f.rows.drop (loc.toNat + i + 1)).countP
                      (fun row => flat_file_predicate_key_match f row key)) := by
                  omega
                rw [harith]
          · next l2 heq => rw [hscan] at heq; simp at heq
          · next e heq => rw [hscan] at heq; simp at heq

/-- Status computed by the update loop from a valid start when at least one
match is in play: success with the total number of matches.  As for delete,
the statement holds for every write-outcome oracle `w`, because lines 461-466
discard `flat_file_write_row`'s return value. -/
theorem flat_file_update_loop_status (key value : List Nat) (w : Nat → Bool) :
    ∀ (d : Nat) (f : FlatFile) (loc : Int) (count wi : Nat),
      f.rows.length + 1 - loc.toNat = d →
      (loc = -1 ∨ (0 ≤ loc ∧ loc ≤ (f.rows.length : Int))) →
      0 < count + (f.rows.drop loc.toNat).countP
            (fun row => flat_file_predicate_key_match f row key) →
      (flat_file_update_loop key value w f loc count wi).1 =
        ⟨IonErr.err_ok,
          count + (f.rows.drop loc.toNat).countP
            (fun row => flat_file_predicate_key_match f row key)⟩ := by
  intro d
  induction d using Nat.strong_induction_on with
  | _ d ih =>
      intro f loc count wi hd hvalid hpos
      have hscan := flat_file_scan_forward_eq f
        (fun row => flat_file_predicate_key_match f row key) loc hvalid
      rw [flat_file_update_loop]
      cases hbf : batchFind (fun row => flat_file_predicate_key_match f row key)
          (f.rows.drop loc.toNat) with
      | none =>
          rw [hbf] at hscan
          have hcount : (f.rows.drop loc.toNat).countP
              (fun row => flat_file_predicate_key_match f row key) = 0 := by
            rw [List.countP_eq_zero]
            intro a ha
            simp [(batchFind_eq_none _ _).mp hbf a ha]
          rw [hcount] at hpos ⊢
          split
          · next m row0 heq => rw [hscan] at heq; simp at heq
          · next l2 heq =>
              rw [if_neg (by omega)]
              simp
          · next e heq => rw [hscan] at heq; simp at heq
      | some ir =>
          obtain ⟨i, r⟩ := ir
          rw [hbf] at hscan
          have hilen := (batchFind_some_spec _ _ _ _ hbf).1
          have hkcount := countP_drop_first_match _ _ _ _ _ hbf
          have hmlen : loc.toNat + i < f.rows.length := by
            simp only [List.length_drop] at hilen; omega
          split
          · next m row0 heq =>
              rw [hscan] at heq
              have hm : loc.toNat + i = m ∧ r = row0 := by
                simpa [ScanResult.found.injEq] using heq
              obtain ⟨hm1, hm2⟩ := hm
              subst hm1
              have h2 : (((loc.toNat + i : Nat) : Int) + 1).toNat =
                  loc.toNat + i + 1 := by omega
              by_cases hw : w wi = true
              case neg =>
                rw [if_neg hw]
                rw [ih (f.rows.length + 1 - (loc.toNat + i + 1)) (by omega) f
                  (((loc.toNat + i : Nat) : Int) + 1) (count + 1) (wi + 1)
                  (by rw [h2]) (Or.inr ⟨by omega, by omega⟩) (by omega)]
                rw [h2, hkcount]
                have harith : count + 1 +
                    (f.rows.drop (loc.toNat + i + 1)).countP
                      (fun row => flat_file_predicate_key_match f row key) =
                    count + (1 + (f.rows.drop (loc.toNat + i + 1)).countP
                      (fun row => flat_file_predicate_key_match f row key)) := by
                  omega
                rw [harith]
              case pos =>
                rw [hw, if_pos rfl]
                have hglen : (flat_file_write_row f (loc.toNat + i)
                    RowStatus.occupied (some key) (some value)).rows.length =
                    f.rows.length :=
                  write_row_list_length _ _ _ _ _ hmlen
                have h3 : (flat_file_write_row f (loc.toNat + i)
                      RowStatus.occupied (some key) (some value)).rows.drop
                      ((((loc.toNat + i : Nat) : Int) + 1).toNat) =
                    f.rows.drop (loc.toNat + i + 1) := by
                  rw [h2]
                  exact write_row_list_drop _ _ _ _ _ _ hmlen (by omega)
                rw [ih (f.rows.length + 1 - (loc.toNat + i + 1)) (by omega)
                  (flat_file_write_row f (loc.toNat + i) RowStatus.occupied
                    (some key) (some value))
                  (((loc.toNat + i : Nat) : Int) + 1) (count + 1) (wi + 1)
                  (by rw [h2]; omega) (Or.inr ⟨by omega, by omega⟩)
                  (by omega)]
                rw [h3]
                have h4 : (fun row => flat_file_predicate_key_match
                      (flat_file_write_row f (loc.toNat + i) RowStatus.occupied
                        (some key) (some value)) row key) =
                    (fun row => flat_file_predicate_key_match f row key) := rfl
                rw [h4, hkcount]
                have harith : count + 1 +
                    (f.rows.drop (loc.toNat + i + 1)).countP
                      (fun row => flat_file_predicate_key_match f row key) =
                    count + (1 + (f.rows.drop (loc.toNat + i + 1)).countP
                      (fun row => flat_file_predicate_key_match f row key)) := by
                  omega
                rw [harith]
          · next l2 heq => rw [hscan] at heq; simp at heq
          · next e heq => rw [hscan] at heq; simp at heq

/-- When the very first scan of the update loop hits end of data with no match
recorded, the loop performs the upsert insert (lines 470-473). -/
theorem flat_file_update_loop_upsert (key value : List Nat) (w : Nat → Bool)
    (f : FlatFile) (loc : Int) (wi : Nat)
    (hvalid : loc = -1 ∨ (0 ≤ loc ∧ loc ≤ (f.rows.length : Int)))
    (hnone : (f.rows.drop loc.toNat).countP
        (fun row => flat_file_predicate_key_match f row key) = 0) :
    flat_file_update_loop key value w f loc 0 wi =
      flat_file_insertF f key value (w wi) := by
  have hscan := flat_file_scan_forward_eq f
    (fun row => flat_file_predicate_key_match f row key) loc hvalid
  have hbf : batchFind (fun row => flat_file_predicate_key_match f row key)
      (f.rows.drop loc.toNat) = none := by
    rw [batchFind_eq_none]
    intro a ha
    have := List.countP_eq_zero.mp hnone a ha
    simpa using this
  rw [hbf] at hscan
  rw [flat_file_update_loop]
  split
  · next m row0 heq => rw [hscan] at heq; simp at heq
  · next l2 heq => rw [if_pos rfl]
  · next e heq => rw [hscan] at heq; simp at heq

/-- Pointwise effect of an in-place row write: only the written index changes,
and a NULL key or value leaves the old bytes in place. -/
theorem write_row_list_getD (rows : List Row) (loc : Nat) (st : RowStatus)
    (k v : Option (List Nat)) (hloc : loc < rows.length) (j : Nat) :
    (write_row_list rows loc st k v).getD j default =
      if j = loc then
        ⟨st, k.getD (rows.getD loc default).key,
          v.getD (rows.getD loc default).value⟩
      else rows.getD j default := by
  rw [write_row_list, dif_pos hloc]
  by_cases hj : j = loc
  · subst hj
    rw [if_pos rfl]
    rw [List.getD_eq_getElem?_getD, List.getElem?_set_self (by simpa using hloc)]
    simp only [Option.getD_some]
    have hold : rows.get ⟨j, hloc⟩ = rows.getD j default := by
      rw [List.getD_eq_getElem?_getD, List.getElem?_eq_getElem hloc]
      rfl
    rw [hold]
  · rw [if_neg hj]
    rw [List.getD_eq_getElem?_getD, List.getD_eq_getElem?_getD]
    rw [List.getElem?_set_ne (fun h => hj h.symm)]

/-- File contents after the fault-free delete loop: every row matching the key
at or after the (resolved) start index becomes EMPTY with its key and value
bytes untouched; every other row and every other store field is unchanged. -/
theorem flat_file_delete_loop_rows (key : List Nat) :
    ∀ (d : Nat) (f : FlatFile) (loc : Int) (count wi : Nat),
      f.rows.length + 1 - loc.toNat = d →
      (loc = -1 ∨ (0 ≤ loc ∧ loc ≤ (f.rows.length : Int))) →
      ((flat_file_delete_loop key (fun _ => true) f loc count wi).2 =
          { f with rows :=
              (flat_file_delete_loop key (fun _ => true) f loc count wi).2.rows } ∧
        (flat_file_delete_loop key (fun _ => true) f loc count wi).2.rows.length =
          f.rows.length ∧
        ∀ j, (flat_file_delete_loop key
              (fun _ => true) f loc count wi).2.rows.getD j default =
            (if loc.toNat ≤ j ∧ flat_file_predicate_key_match f
                (f.rows.getD j default) key = true then
              { f.rows.getD j default with row_status := RowStatus.empty }
            else f.rows.getD j default)) := by
  intro d
  induction d using Nat.strong_induction_on with
  | _ d ih =>
      intro f loc count wi hd hvalid
      have hscan := flat_file_scan_forward_eq f
        (fun row => flat_file_predicate_key_match f row key) loc hvalid
      rw [flat_file_delete_loop]
      cases hbf : batchFind (fun row => flat_file_predicate_key_match f row key)
          (f.rows.drop loc.toNat) with
      | none =>
          rw [hbf] at hscan
          have hnm : ∀ j, loc.toNat ≤ j →
              flat_file_predicate_key_match f (f.rows.getD j default) key =
                false := by
            intro j hj
            by_cases hjl : j < f.rows.length
            · have h1 : j - loc.toNat < (f.rows.drop loc.toNat).length := by
                simp only [List.length_drop]; omega
              have h2 : (f.rows.drop loc.toNat).getD (j - loc.toNat) default =
                  f.rows.getD j default := by
                rw [getD_drop]
                congr 1
                omega
              have h3 : f.rows.getD j default ∈ f.rows.drop loc.toNat := by
                rw [← h2, List.getD_eq_getElem?_getD, List.getElem?_eq_getElem h1]
                simpa using List.getElem_mem h1
              have h4 := (batchFind_eq_none _ _).mp hbf _ h3
              simpa using h4
            · have h5 : f.rows.getD j default = default := by
                rw [List.getD_eq_getElem?_getD, List.getElem?_eq_none (by omega)]
                rfl
              rw [h5]
              rfl
          split
          · next m row0 heq => rw [hscan] at heq; simp at heq
          · next l2 heq =>
              refine ⟨rfl, rfl, ?_⟩
              intro j
              have hcond : ¬ (loc.toNat ≤ j ∧ flat_file_predicate_key_match f
                  (f.rows.getD j default) key = true) := by
                rintro ⟨h1, h2⟩
                rw [hnm j h1] at h2
                exact absurd h2 (by simp)
              rw [if_neg hcond]
          · next e heq => rw [hscan] at heq; simp at heq
      | some ir =>
          obtain ⟨i, r⟩ := ir
          rw [hbf] at hscan
          obtain ⟨hilen, hgetD, hpr, hlow⟩ := batchFind_some_spec _ _ _ _ hbf
          have hmlen : loc.toNat + i < f.rows.length := by
            simp only [List.length_drop] at hilen; omega
          have hpm : flat_file_predicate_key_match f
              (f.rows.getD (loc.toNat + i) default) key = true := by
            rw [← getD_drop, hgetD]
            exact hpr
          have hlowf : ∀ j, loc.toNat ≤ j → j < loc.toNat + i →
              flat_file_predicate_key_match f (f.rows.getD j default) key =
                false := by
            intro j h1 h2
            have h3 := hlow (j - loc.toNat) (by omega)
            rw [getD_drop] at h3
            rw [show loc.toNat + (j - loc.toNat) = j from by omega] at h3
            exact h3
          split
          · next m row0 heq =>
              rw [hscan] at heq
              have hm12 : loc.toNat + i = m ∧ r = row0 := by
                simpa [ScanResult.found.injEq] using heq
              obtain ⟨hm1, hm2⟩ := hm12
              subst hm1
              rw [if_pos rfl]
              have h2 : (((loc.toNat + i : Nat) : Int) + 1).toNat =
                  loc.toNat + i + 1 := by omega
              have hglen : (flat_file_write_row f (loc.toNat + i)
                  RowStatus.empty none none).rows.length = f.rows.length :=
                write_row_list_length _ _ _ _ _ hmlen
              obtain ⟨ih1, ih2, ih3⟩ :=
                ih (f.rows.length + 1 - (loc.toNat + i + 1)) (by omega)
                  (flat_file_write_row f (loc.toNat + i) RowStatus.empty none none)
                  (((loc.toNat + i : Nat) : Int) + 1) (count + 1) (wi + 1)
                  (by rw [h2]; omega) (Or.inr ⟨by omega, by omega⟩)
              refine ⟨ih1.trans rfl, ih2.trans hglen, ?_⟩
              intro j
              rw [ih3 j]
              rw [h2]
              by_cases hjm : j = loc.toNat + i
              · rw [if_neg (fun hand => absurd hand.1 (by omega))]
                rw [if_pos ⟨by omega, by rw [hjm]; exact hpm⟩]
                rw [show (flat_file_write_row f (loc.toNat + i) RowStatus.empty
                    none none).rows =
                  write_row_list f.rows (loc.toNat + i) RowStatus.empty none none
                  from rfl]
                rw [write_row_list_getD _ _ _ _ _ hmlen j, if_pos hjm]
                rw [hjm]
                rfl
              · have hgj2 : (flat_file_write_row f (loc.toNat + i)
                      RowStatus.empty none none).rows.getD j default =
                    f.rows.getD j default := by
                  rw [show (flat_file_write_row f (loc.toNat + i) RowStatus.empty
                      none none).rows =
                    write_row_list f.rows (loc.toNat + i) RowStatus.empty none
                      none from rfl]
                  rw [write_row_list_getD _ _ _ _ _ hmlen j, if_neg hjm]
                rw [hgj2]
                by_cases hple : flat_file_predicate_key_match f
                    (f.rows.getD j default) key = true
                · by_cases hrange : loc.toNat + i + 1 ≤ j
                  · rw [if_pos ⟨hrange, hple⟩, if_pos ⟨by omega, hple⟩]
                  · rw [if_neg (fun hand => hrange hand.1)]
                    by_cases hsle : loc.toNat ≤ j
                    · rw [hlowf j hsle (by omega)] at hple
                      exact absurd hple (by simp)
                    · rw [if_neg (fun hand => hsle hand.1)]
                · rw [if_neg (fun hand => hple hand.2),
                    if_neg (fun hand => hple hand.2)]
          · next l2 heq => rw [hscan] at heq; simp at heq
          · next e heq => rw [hscan] at heq; simp at heq

/-- File contents after the fault-free update loop (with at least one match in
play, so the upsert fallback is never taken): every row matching the key at or
after the start index is rewritten `⟨OCCUPIED, key, value⟩`; every other row
and every other store field is unchanged. -/
theorem flat_file_update_loop_rows (key value : List Nat) :
    ∀ (d : Nat) (f : FlatFile) (loc : Int) (count wi : Nat),
      f.rows.length + 1 - loc.toNat = d →
      (loc = -1 ∨ (0 ≤ loc ∧ loc ≤ (f.rows.length : Int))) →
      0 < count + (f.rows.drop loc.toNat).countP
          (fun row => flat_file_predicate_key_match f row key) →
      ((flat_file_update_loop key value (fun _ => true) f loc count wi).2 =
          { f with rows :=
              (flat_file_update_loop key value
                (fun _ => true) f loc count wi).2.rows } ∧
        (flat_file_update_loop key value
            (fun _ => true) f loc count wi).2.rows.length = f.rows.length ∧
        ∀ j, (flat_file_update_loop key value
              (fun _ => true) f loc count wi).2.rows.getD j default =
            (if loc.toNat ≤ j ∧ flat_file_predicate_key_match f
                (f.rows.getD j default) key = true then
              (⟨RowStatus.occupied, key, value⟩ : Row)
            else f.rows.getD j default)) := by
  intro d
  induction d using Nat.strong_induction_on with
  | _ d ih =>
      intro f loc count wi hd hvalid hpos
      have hscan := flat_file_scan_forward_eq f
        (fun row => flat_file_predicate_key_match f row key) loc hvalid
      rw [flat_file_update_loop]
      cases hbf : batchFind (fun row => flat_file_predicate_key_match f row key)
          (f.rows.drop loc.toNat) with
      | none =>
          rw [hbf] at hscan
          have hcountz : (f.rows.drop loc.toNat).countP
              (fun row => flat_file_predicate_key_match f row key) = 0 := by
            rw [List.countP_eq_zero]
            intro a ha
            simp [(batchFind_eq_none _ _).mp hbf a ha]
          have hnm : ∀ j, loc.toNat ≤ j →
              flat_file_predicate_key_match f (f.rows.getD j default) key =
                false := by
            intro j hj
            by_cases hjl : j < f.rows.length
            · have h1 : j - loc.toNat < (f.rows.drop loc.toNat).length := by
                simp only [List.length_drop]; omega
              have h2 : (f.rows.drop loc.toNat).getD (j - loc.toNat) default =
                  f.rows.getD j default := by
                rw [getD_drop]
                congr 1
                omega
              have h3 : f.rows.getD j default ∈ f.rows.drop loc.toNat := by
                rw [← h2, List.getD_eq_getElem?_getD, List.getElem?_eq_getElem h1]
                simpa using List.getElem_mem h1
              have h4 := (batchFind_eq_none _ _).mp hbf _ h3
              simpa using h4
            · have h5 : f.rows.getD j default = default := by
                rw [List.getD_eq_getElem?_getD, List.getElem?_eq_none (by omega)]
                rfl
              rw [h5]
              rfl
          split
          · next m row0 heq => rw [hscan] at heq; simp at heq
          · next l2 heq =>
              rw [if_neg (by omega)]
              refine ⟨rfl, rfl, ?_⟩
              intro j
              have hcond : ¬ (loc.toNat ≤ j ∧ flat_file_predicate_key_match f
                  (f.rows.getD j default) key = true) := by
                rintro ⟨h1, h2⟩
                rw [hnm j h1] at h2
                exact absurd h2 (by simp)
              rw [if_neg hcond]
          · next e heq => rw [hscan] at heq; simp at heq
      | some ir =>
          obtain ⟨i, r⟩ := ir
          rw [hbf] at hscan
          obtain ⟨hilen, hgetD, hpr, hlow⟩ := batchFind_some_spec _ _ _ _ hbf
          have hmlen : loc.toNat + i < f.rows.length := by
            simp only [List.length_drop] at hilen; omega
          have hpm : flat_file_predicate_key_match f
              (f.rows.getD (loc.toNat + i) default) key = true := by
            rw [← getD_drop, hgetD]
            exact hpr
          have hlowf : ∀ j, loc.toNat ≤ j → j < loc.toNat + i →
              flat_file_predicate_key_match f (f.rows.getD j default) key =
                false := by
            intro j h1 h2
            have h3 := hlow (j - loc.toNat) (by omega)
            rw [getD_drop] at h3
            rw [show loc.toNat + (j - loc.toNat) = j from by omega] at h3
            exact h3
          split
          · next m row0 heq =>
              rw [hscan] at heq
              have hm12 : loc.toNat + i = m ∧ r = row0 := by
                simpa [ScanResult.found.injEq] using heq
              obtain ⟨hm1, hm2⟩ := hm12
              subst hm1
              rw [if_pos rfl]
              have h2 : (((loc.toNat + i : Nat) : Int) + 1).toNat =
                  loc.toNat + i + 1 := by omega
              have hglen : (flat_file_write_row f (loc.toNat + i)
                  RowStatus.occupied (some key) (some value)).rows.length =
                  f.rows.length :=
                write_row_list_length _ _ _ _ _ hmlen
              obtain ⟨ih1, ih2, ih3⟩ :=
                ih (f.rows.length + 1 - (loc.toNat + i + 1)) (by omega)
                  (flat_file_write_row f (loc.toNat + i) RowStatus.occupied
                    (some key) (some value))
                  (((loc.toNat + i : Nat) : Int) + 1) (count + 1) (wi + 1)
                  (by rw [h2]; omega) (Or.inr ⟨by omega, by omega⟩)
                  (by omega)
              refine ⟨ih1.trans rfl, ih2.trans hglen, ?_⟩
              intro j
              rw [ih3 j]
              rw [h2]
              by_cases hjm : j = loc.toNat + i
              · rw [if_neg (fun hand => absurd hand.1 (by omega))]
                rw [if_pos ⟨by omega, by rw [hjm]; exact hpm⟩]
                rw [show (flat_file_write_row f (loc.toNat + i)
                    RowStatus.occupied (some key) (some value)).rows =
                  write_row_list f.rows (loc.toNat + i) RowStatus.occupied
                    (some key) (some value) from rfl]
                rw [write_row_list_getD _ _ _ _ _ hmlen j, if_pos hjm]
                rfl
              · have hgj2 : (flat_file_write_row f (loc.toNat + i)
                      RowStatus.occupied (some key)
                      (some value)).rows.getD j default =
                    f.rows.getD j default := by
                  rw [show (flat_file_write_row f (loc.toNat + i)
                      RowStatus.occupied (some key) (some value)).rows =
                    write_row_list f.rows (loc.toNat + i) RowStatus.occupied
                      (some key) (some value) from rfl]
                  rw [write_row_list_getD _ _ _ _ _ hmlen j, if_neg hjm]
                rw [hgj2]
                by_cases hple : flat_file_predicate_key_match f
                    (f.rows.getD j default) key = true
                · by_cases hrange : loc.toNat + i + 1 ≤ j
                  · rw [if_pos ⟨hrange, hple⟩, if_pos ⟨by omega, hple⟩]
                  · rw [if_neg (fun hand => hrange hand.1)]
                    by_cases hsle : loc.toNat ≤ j
                    · rw [hlowf j hsle (by omega)] at hple
                      exact absurd hple (by simp)
                    · rw [if_neg (fun hand => hsle hand.1)]
                · rw [if_neg (fun hand => hple hand.2),
                    if_neg (fun hand => hple hand.2)]
          · next l2 heq => rw [hscan] at heq; simp at heq
          · next e heq => rw [hscan] at heq; simp at heq

/-- `getD` agrees with `getElem` in range. -/
theorem getD_of_lt (l : List Row) (n : Nat) (h : n < l.length) :
    l.getD n default = l[n] := by
  rw [List.getD_eq_getElem?_getD, List.getElem?_eq_getElem h]
  rfl

/-- A map that fixes every element of a list is the identity on it. -/
theorem map_id_of_eq (g : Row → Row) :
    ∀ (l : List Row), (∀ r ∈ l, g r = r) → l.map g = l := by
  intro l
  induction l with
  | nil => intro _; rfl
  | cons a t ih =>
      intro h
      rw [List.map_cons, h a (by simp), ih (fun r hr => h r (by simp [hr]))]

/-- A forward scan from the natural-start sentinel is the linear search of the
whole file. -/
theorem flat_file_scan_natural_forward (f : FlatFile) (p : Row → Bool) :
    flat_file_scan f (-1) true p =
      (match batchFind p f.rows with
       | some (i, r) => ScanResult.found i r
       | none => ScanResult.hitEof f.rows.length) := by
  rw [flat_file_scan_forward_eq f p (-1) (Or.inl rfl)]
  rw [show ((-1 : Int)).toNat = 0 from rfl]
  rw [List.drop_zero]
  cases hb : batchFind p f.rows with
  | none => rfl
  | some ir =>
      obtain ⟨i, r⟩ := ir
      show ScanResult.found (0 + i) r = ScanResult.found i r
      rw [Nat.zero_add]

/-- A backward scan from the natural-start sentinel starts at end of data. -/
theorem flat_file_scan_natural_backward (f : FlatFile) (p : Row → Bool) :
    flat_file_scan f (-1) false p = scanBackwardAux f p f.rows.length := by
  rw [flat_file_scan]
  have hres : resolved_start f (-1) false = (f.rows.length : Int) := rfl
  rw [hres]
  rw [if_neg (by omega)]
  rw [if_neg (by simp)]
  congr 1

/-- `flat_file_insert` characterised: it always succeeds with count 1 and
writes an OCCUPIED row with the given key and value at `insert_loc_spec`. -/
theorem flat_file_insert_eq (f : FlatFile) (key value : List Nat) :
    flat_file_insert f key value =
      (⟨IonErr.err_ok, 1⟩,
        flat_file_write_row f (insert_loc_spec f) RowStatus.occupied
          (some key) (some value)) := by
  rw [flat_file_insert]
  rw [flat_file_insertF]
  rw [flat_file_scan_natural_forward]
  rw [insert_loc_spec]
  cases hb : batchFind (fun row => flat_file_predicate_empty f row) f.rows with
  | some ir =>
      obtain ⟨i, r⟩ := ir
      rfl
  | none => rfl

/-- Everything below the chosen insert slot is occupied, the chosen slot is
EMPTY when it is an existing row, and when no row is EMPTY the chosen slot is
the append position. -/
theorem insert_loc_spec_lowest (f : FlatFile) :
    insert_loc_spec f ≤ f.rows.length ∧
    (∀ j, j < insert_loc_spec f →
      (f.rows.getD j default).row_status ≠ RowStatus.empty) ∧
    (insert_loc_spec f < f.rows.length →
      (f.rows.getD (insert_loc_spec f) default).row_status = RowStatus.empty) ∧
    ((∀ j, j < f.rows.length →
        (f.rows.getD j default).row_status ≠ RowStatus.empty) →
      insert_loc_spec f = f.rows.length) := by
  cases hb : batchFind (fun row => flat_file_predicate_empty f row) f.rows with
  | some ir =>
      obtain ⟨i, r⟩ := ir
      have hloc : insert_loc_spec f = i := by rw [insert_loc_spec, hb]
      rw [hloc]
      obtain ⟨hilen, hgetD, hpr, hlow⟩ := batchFind_some_spec _ _ _ _ hb
      refine ⟨by omega, ?_, ?_, ?_⟩
      · intro j hj
        have := hlow j hj
        simp only [flat_file_predicate_empty] at this
        simpa using this
      · intro _
        rw [hgetD]
        simp only [flat_file_predicate_empty] at hpr
        simpa using hpr
      · intro hall
        exfalso
        have h1 := hall i hilen
        rw [hgetD] at h1
        simp only [flat_file_predicate_empty] at hpr
        exact h1 (by simpa using hpr)
  | none =>
      have hloc : insert_loc_spec f = f.rows.length := by
        rw [insert_loc_spec, hb]
      rw [hloc]
      have hnone := (batchFind_eq_none _ _).mp hb
      refine ⟨Nat.le_refl _, ?_, by omega, fun _ => rfl⟩
      intro j hj
      have hmem : f.rows.getD j default ∈ f.rows := by
        rw [getD_of_lt _ _ hj]
        exact List.getElem_mem hj
      have := hnone _ hmem
      simp only [flat_file_predicate_empty] at this
      simpa using this

/-- Status of a fault-free delete: count = number of matches, not-found
exactly when there are none. -/
theorem flat_file_delete_status (f : FlatFile) (key : List Nat)
    (hs : f.sorted_mode = false) :
    (flat_file_delete f key).1 =
      ⟨if numMatches f key = 0 then IonErr.err_item_not_found
        else IonErr.err_ok, numMatches f key⟩ := by
  rw [flat_file_delete, flat_file_deleteF, hs]
  rw [if_neg (by simp)]
  rw [flat_file_delete_loop_status key (fun _ => true)
    (f.rows.length + 1 - ((-1 : Int)).toNat) f (-1) 0 0 rfl (Or.inl rfl)]
  rw [show ((-1 : Int)).toNat = 0 from rfl, List.drop_zero]
  rw [numMatches]
  rw [Nat.zero_add]

/-- The store after a fault-free delete: matching rows tombstoned in place,
everything else (other rows and the other store fields) unchanged. -/
theorem flat_file_delete_post (f : FlatFile) (key : List Nat)
    (hs : f.sorted_mode = false) :
    (flat_file_delete f key).2 = { f with rows := tombstoned f key } := by
  rw [flat_file_delete, flat_file_deleteF, hs]
  rw [if_neg (by simp)]
  obtain ⟨h1, h2, h3⟩ := flat_file_delete_loop_rows key
    (f.rows.length + 1 - ((-1 : Int)).toNat) f (-1) 0 0 rfl (Or.inl rfl)
  have hrows : (flat_file_delete_loop key
      (fun _ => true) f (-1) 0 0).2.rows = tombstoned f key := by
    have hlen2 : (tombstoned f key).length = f.rows.length := by
      simp [tombstoned]
    apply List.ext_getElem (by rw [h2, hlen2])
    intro n h1n h2n
    have hnf : n < f.rows.length := by rw [← hlen2]; exact h2n
    rw [← getD_of_lt _ _ h1n, h3 n]
    rw [show ((-1 : Int)).toNat = 0 from rfl]
    simp only [tombstoned, List.getElem_map]
    rw [show f.rows[n] = f.rows.getD n default from (getD_of_lt _ _ hnf).symm]
    by_cases hps : flat_file_predicate_key_match f
        (f.rows.getD n default) key = true
    · rw [if_pos ⟨by omega, hps⟩, if_pos hps]
    · rw [if_neg (fun hand => hps hand.2), if_neg hps]
  rw [h1, hrows, hs]

/-- Status of a fault-free update with at least one match. -/
theorem flat_file_update_status (f : FlatFile) (key value : List Nat)
    (hs : f.sorted_mode = false) (hN : 0 < numMatches f key) :
    (flat_file_update f key value).1 = ⟨IonErr.err_ok, numMatches f key⟩ := by
  rw [numMatches] at hN
  rw [flat_file_update, flat_file_updateF, hs]
  rw [if_neg (by simp)]
  rw [flat_file_update_loop_status key value (fun _ => true)
    (f.rows.length + 1 - ((-1 : Int)).toNat) f (-1) 0 0 rfl (Or.inl rfl)
    (by rw [show ((-1 : Int)).toNat = 0 from rfl, List.drop_zero]; omega)]
  rw [show ((-1 : Int)).toNat = 0 from rfl, List.drop_zero]
  rw [numMatches]
  rw [Nat.zero_add]

/-- The store after a fault-free update with at least one match: matching rows
rewritten `⟨OCCUPIED, key, value⟩` in place, everything else unchanged. -/
theorem flat_file_update_post (f : FlatFile) (key value : List Nat)
    (hs : f.sorted_mode = false) (hN : 0 < numMatches f key) :
    (flat_file_update f key value).2 =
      { f with rows := rewritten f key value } := by
  rw [numMatches] at hN
  rw [flat_file_update, flat_file_updateF, hs]
  rw [if_neg (by simp)]
  obtain ⟨h1, h2, h3⟩ := flat_file_update_loop_rows key value
    (f.rows.length + 1 - ((-1 : Int)).toNat) f (-1) 0 0 rfl (Or.inl rfl)
    (by rw [show ((-1 : Int)).toNat = 0 from rfl, List.drop_zero]; omega)
  have hrows : (flat_file_update_loop key value
      (fun _ => true) f (-1) 0 0).2.rows = rewritten f key value := by
    have hlen2 : (rewritten f key value).length = f.rows.length := by
      simp [rewritten]
    apply List.ext_getElem (by rw [h2, hlen2])
    intro n h1n h2n
    have hnf : n < f.rows.length := by rw [← hlen2]; exact h2n
    rw [← getD_of_lt _ _ h1n, h3 n]
    rw [show ((-1 : Int)).toNat = 0 from rfl]
    simp only [rewritten, List.getElem_map]
    rw [show f.rows[n] = f.rows.getD n default from (getD_of_lt _ _ hnf).symm]
    by_cases hps : flat_file_predicate_key_match f
        (f.rows.getD n default) key = true
    · rw [if_pos ⟨by omega, hps⟩, if_pos hps]
    · rw [if_neg (fun hand => hps hand.2), if_neg hps]
  rw [h1, hrows, hs]

/-- Zero-match update falls back to a plain insert (upsert). -/
theorem flat_file_update_upsert (f : FlatFile) (key value : List Nat)
    (hs : f.sorted_mode = false) (h0 : numMatches f key = 0) :
    flat_file_update f key value = flat_file_insert f key value := by
  rw [numMatches] at h0
  rw [flat_file_update, flat_file_updateF, hs]
  rw [if_neg (by simp)]
  rw [flat_file_update_loop_upsert key value (fun _ => true) f (-1) 0
    (Or.inl rfl)
    (by rw [show ((-1 : Int)).toNat = 0 from rfl, List.drop_zero]; exact h0)]
  rfl

/-- Get of the lowest-index matching row. -/
theorem flat_file_get_found (f : FlatFile) (key : List Nat)
    (hs : f.sorted_mode = false) (m : Nat) (hm : m < f.rows.length)
    (hp : flat_file_predicate_key_match f (f.rows.getD m default) key = true)
    (hlow : ∀ j, j < m →
      flat_file_predicate_key_match f (f.rows.getD j default) key = false) :
    flat_file_get f key =
      (⟨IonErr.err_ok, 1⟩, some (f.rows.getD m default).value, f) := by
  rw [flat_file_get, hs]
  rw [if_neg (by simp)]
  rw [flat_file_scan_natural_forward]
  rw [batchFind_of_first _ f.rows m hm hp hlow]

/-- Get with no matching row: item not found. -/
theorem flat_file_get_not_found (f : FlatFile) (key : List Nat)
    (hs : f.sorted_mode = false) (h0 : numMatches f key = 0) :
    flat_file_get f key = (⟨IonErr.err_item_not_found, 0⟩, none, f) := by
  rw [numMatches] at h0
  rw [flat_file_get, hs]
  rw [if_neg (by simp)]
  rw [flat_file_scan_natural_forward]
  have hb : batchFind (fun row => flat_file_predicate_key_match f row key)
      f.rows = none := by
    rw [batchFind_eq_none]
    intro r hr
    have := List.countP_eq_zero.mp h0 r hr
    simpa using this
  rw [hb]

/-- After tombstoning every match, no row matches the key any more. -/
theorem numMatches_tombstoned (f : FlatFile) (key : List Nat) :
    numMatches { f with rows := tombstoned f key } key = 0 := by
  rw [numMatches]
  have hpred : (fun row => flat_file_predicate_key_match
      { f with rows := tombstoned f key } row key) =
      (fun row => flat_file_predicate_key_match f row key) := rfl
  show (tombstoned f key).countP _ = 0
  rw [hpred, tombstoned, List.countP_map, List.countP_eq_zero]
  intro r hr
  by_cases hp : flat_file_predicate_key_match f r key = true
  · simp only [Function.comp_apply, hp, if_pos]
    simp [flat_file_predicate_key_match]
  · simp only [Function.comp_apply, if_neg hp]
    simp at hp
    simp [hp]

/-- Byte-wise key comparator (memcmp-style capability): 0 exactly on equal
byte lists. -/
def byte_compare (a b : List Nat) : Int := if a = b then 0 else 1

/-- Two OCCUPIED rows sharing key `[1]`, buffer capacity 2: the backward
scan's one batch covers both rows and is examined in ascending order. -/
def two_dup_store : FlatFile :=
  { key_size := 1, value_size := 1, compare := byte_compare,
    num_buffered := 2, num_buffered_pos := by omega, sorted_mode := false,
    rows := [⟨RowStatus.occupied, [1], [10]⟩, ⟨RowStatus.occupied, [1], [20]⟩] }

/-- Witness store: buffer capacity 1, rows with keys `[1]` and `[2]`. -/
def wit_store : FlatFile :=
  { key_size := 1, value_size := 1, compare := byte_compare,
    num_buffered := 1, num_buffered_pos := by omega, sorted_mode := false,
    rows := [⟨RowStatus.occupied, [1], [10]⟩, ⟨RowStatus.occupied, [2], [20]⟩] }

/-- Three duplicates of key `[1]` spanning batch boundaries (buffer
capacity 2, matches at indices 0, 2 and 3). -/
def dup3_store : FlatFile :=
  { key_size := 1, value_size := 1, compare := byte_compare,
    num_buffered := 2, num_buffered_pos := by omega, sorted_mode := false,
    rows := [⟨RowStatus.occupied, [1], [10]⟩, ⟨RowStatus.occupied, [2], [20]⟩,
      ⟨RowStatus.occupied, [1], [30]⟩, ⟨RowStatus.occupied, [1], [40]⟩] }

/-- A store whose comparator deems every pair of keys equal — a legal
capability (think case-folding or truncating comparison). -/
def coarse_store : FlatFile :=
  { key_size := 1, value_size := 1, compare := fun _ _ => 0,
    num_buffered := 1, num_buffered_pos := by omega, sorted_mode := false,
    rows := [⟨RowStatus.occupied, [1], [5]⟩] }

/-- Write-outcome oracle: the first `flat_file_write_row` call succeeds and
every later one fails. -/
def first_write_only (i : Nat) : Bool := i == 0

/-- C1 (amended): a forward exact-key scan from the natural-start sentinel
returns the lowest-index matching row for every buffer capacity; a backward
scan from the natural-start sentinel returns the highest-index matching row
when `num_buffered = 1` (for larger buffers it returns the first match in
ascending order within the last batch holding one — see the counterexample). -/
theorem flat_file_scan_exact_key_extremes (f : FlatFile) (key : List Nat)
    (m : Nat) (hm : m < f.rows.length) :
    ((flat_file_predicate_key_match f (f.rows.getD m default) key = true →
      (∀ j, j < m →
        flat_file_predicate_key_match f (f.rows.getD j default) key = false) →
      flat_file_scan f (-1) true
          (fun row => flat_file_predicate_key_match f row key) =
        ScanResult.found m (f.rows.getD m default)) ∧
     (f.num_buffered = 1 →
      flat_file_predicate_key_match f (f.rows.getD m default) key = true →
      (∀ j, m < j → j < f.rows.length →
        flat_file_predicate_key_match f (f.rows.getD j default) key = false) →
      flat_file_scan f (-1) false
          (fun row => flat_file_predicate_key_match f row key) =
        ScanResult.found m (f.rows.getD m default))) := by
  constructor
  · intro hp hlow
    rw [flat_file_scan_natural_forward]
    rw [batchFind_of_first _ f.rows m hm hp hlow]
  · intro hnb hp hhigh
    rw [flat_file_scan_natural_backward]
    exact scanBackwardAux_nb1_found f _ hnb f.rows.length m (Nat.le_refl _)
      hm hp (fun j hj1 hj2 => hhigh j hj1 hj2)

/-- C1 counterexample: with `num_buffered = 2` and both rows matching, the
backward scan from end-of-data returns index 0, not the highest matching
index 1 — the one batch is evaluated in ascending order. -/
theorem c1_backward_not_highest :
    flat_file_scan two_dup_store (-1) false
        (fun row => flat_file_predicate_key_match two_dup_store row [1]) =
      ScanResult.found 0 ⟨RowStatus.occupied, [1], [10]⟩ ∧
    flat_file_predicate_key_match two_dup_store
      (two_dup_store.rows.getD 1 default) [1] = true ∧
    two_dup_store.rows.length = 2 := by
  refine ⟨?_, by decide, rfl⟩
  rw [flat_file_scan_natural_backward]
  rw [scanBackwardAux]
  rfl

/-- C1 witness: store with a single-row buffer where row 1 is the only match
of key `[2]`: both directions find it. -/
theorem c1_scan_extremes_witness :
    flat_file_scan wit_store (-1) true
        (fun row => flat_file_predicate_key_match wit_store row [2]) =
      ScanResult.found 1 (wit_store.rows.getD 1 default) ∧
    flat_file_scan wit_store (-1) false
        (fun row => flat_file_predicate_key_match wit_store row [2]) =
      ScanResult.found 1 (wit_store.rows.getD 1 default) := by
  have h := flat_file_scan_exact_key_extremes wit_store [2] 1 (by decide)
  refine ⟨h.1 (by decide) ?_, h.2 rfl (by decide) ?_⟩
  · intro j hj
    have hj0 : j = 0 := Nat.lt_one_iff.mp hj
    subst hj0
    decide
  · intro j h1 h2
    rw [show wit_store.rows.length = 2 from rfl] at h2
    omega

/-- C2 (amended): the status Delete/Update return is oblivious to row-writer
failures — lines 423-428 and 461-466 discard `flat_file_write_row`'s return
value, so a faulty run reports the same error and count as the fault-free
run; Insert, by contrast, does propagate its writer's failure (lines
359-364). -/
theorem flat_file_writer_error_handling (f : FlatFile) (key value : List Nat)
    (w : Nat → Bool) (hs : f.sorted_mode = false) :
    (flat_file_deleteF f key w).1 = (flat_file_delete f key).1 ∧
    (0 < numMatches f key →
      (flat_file_updateF f key value w).1 = (flat_file_update f key value).1) ∧
    (flat_file_insertF f key value false).1 =
      ⟨IonErr.err_file_incomplete_write, 0⟩ := by
  refine ⟨?_, ?_, ?_⟩
  · rw [flat_file_delete, flat_file_deleteF, flat_file_deleteF, hs]
    rw [if_neg (by simp), if_neg (by simp)]
    rw [flat_file_delete_loop_status key w _ f (-1) 0 0 rfl (Or.inl rfl),
      flat_file_delete_loop_status key (fun _ => true) _ f (-1) 0 0 rfl
        (Or.inl rfl)]
  · intro hN
    rw [flat_file_update_status f key value hs hN]
    rw [flat_file_updateF, hs]
    rw [if_neg (by simp)]
    rw [numMatches] at hN
    rw [flat_file_update_loop_status key value w _ f (-1) 0 0 rfl (Or.inl rfl)
      (by rw [show ((-1 : Int)).toNat = 0 from rfl, List.drop_zero]; omega)]
    rw [show ((-1 : Int)).toNat = 0 from rfl, List.drop_zero, numMatches,
      Nat.zero_add]
  · rw [flat_file_insertF]
    rw [flat_file_scan_natural_forward]
    cases hb : batchFind (fun row => flat_file_predicate_empty f row)
        f.rows with
    | some ir =>
        obtain ⟨i, r⟩ := ir
        rfl
    | none => rfl

/-- C2 counterexample: two matching rows; the first tombstoning write
succeeds, the second fails, yet the reported status is success with count 2 —
not the writer's `err_file_incomplete_write` with the count of rows actually
mutated. -/
theorem c2_write_failure_ignored :
    (flat_file_deleteF two_dup_store [1] first_write_only).1 =
      ⟨IonErr.err_ok, 2⟩ ∧
    (flat_file_deleteF two_dup_store [1] first_write_only).1.error ≠
      IonErr.err_file_incomplete_write ∧
    first_write_only 0 = true ∧ first_write_only 1 = false := by
  have h := flat_file_delete_loop_status [1] first_write_only
    (two_dup_store.rows.length + 1 - ((-1 : Int)).toNat) two_dup_store
    (-1) 0 0 rfl (Or.inl rfl)
  have h2 : (flat_file_deleteF two_dup_store [1] first_write_only).1 =
      ⟨IonErr.err_ok, 2⟩ := by
    rw [show flat_file_deleteF two_dup_store [1] first_write_only =
      flat_file_delete_loop [1] first_write_only two_dup_store (-1) 0 0
      from rfl]
    rw [h]
    rfl
  exact ⟨h2, by rw [h2]; decide, rfl, rfl⟩

/-- C2 witness: at a concrete two-duplicate store the faulty delete reports
the same status as the fault-free delete, and a failed insert write is
propagated. -/
theorem c2_error_handling_witness :
    (flat_file_deleteF two_dup_store [1] first_write_only).1 =
      (flat_file_delete two_dup_store [1]).1 ∧
    (flat_file_insertF two_dup_store [3] [7] false).1 =
      ⟨IonErr.err_file_incomplete_write, 0⟩ := by
  have h := flat_file_writer_error_handling two_dup_store [1] [7]
    first_write_only rfl
  exact ⟨h.1, h.2.2⟩

/-- C3: Insert always succeeds with count 1 (the file can always grow and
`err_file_hit_eof` from the empty-slot scan means "append"); the row it
writes OCCUPIED with the given key and value sits at the lowest-index EMPTY
slot when one exists, and otherwise at the current total row count, appending
one past the last written row. -/
theorem flat_file_insert_chooses_lowest_empty (f : FlatFile)
    (key value : List Nat) :
    (flat_file_insert f key value).1 = ⟨IonErr.err_ok, 1⟩ ∧
    (flat_file_insert f key value).2.rows =
      write_row_list f.rows (insert_loc_spec f) RowStatus.occupied
        (some key) (some value) ∧
    insert_loc_spec f ≤ f.rows.length ∧
    (∀ j, j < insert_loc_spec f →
      (f.rows.getD j default).row_status ≠ RowStatus.empty) ∧
    (insert_loc_spec f < f.rows.length →
      (f.rows.getD (insert_loc_spec f) default).row_status = RowStatus.empty) ∧
    ((∀ j, j < f.rows.length →
        (f.rows.getD j default).row_status ≠ RowStatus.empty) →
      insert_loc_spec f = f.rows.length ∧
      (flat_file_insert f key value).2.rows =
        f.rows ++ [⟨RowStatus.occupied, key, value⟩]) := by
  obtain ⟨hle, hlow, hcur, hall⟩ := insert_loc_spec_lowest f
  refine ⟨by rw [flat_file_insert_eq], by rw [flat_file_insert_eq]; rfl, hle,
    hlow, hcur, ?_⟩
  intro hocc
  have hlen := hall hocc
  refine ⟨hlen, ?_⟩
  rw [flat_file_insert_eq]
  show write_row_list f.rows (insert_loc_spec f) RowStatus.occupied
    (some key) (some value) = f.rows ++ [⟨RowStatus.occupied, key, value⟩]
  rw [hlen, write_row_list]
  rw [dif_neg (by omega)]
  rfl

/-- C4: when `N >= 1` rows match the key, Delete tombstones exactly those `N`
rows (statuses EMPTY, key/value bytes kept) and reports success with count
`N`, and Update rewrites exactly those `N` rows `⟨OCCUPIED, key, value⟩` and
reports success with count `N`; the loop re-scans from one past each match,
so matches spanning batch boundaries are all visited. -/
theorem flat_file_delete_update_all_matches (f : FlatFile)
    (key value : List Nat) (hs : f.sorted_mode = false)
    (hN : 0 < numMatches f key) :
    (flat_file_delete f key).1 = ⟨IonErr.err_ok, numMatches f key⟩ ∧
    (flat_file_delete f key).2.rows = tombstoned f key ∧
    (flat_file_update f key value).1 = ⟨IonErr.err_ok, numMatches f key⟩ ∧
    (flat_file_update f key value).2.rows = rewritten f key value := by
  refine ⟨?_, ?_, ?_, ?_⟩
  · rw [flat_file_delete_status f key hs, if_neg (by omega)]
  · rw [flat_file_delete_post f key hs]
  · exact flat_file_update_status f key value hs hN
  · rw [flat_file_update_post f key value hs hN]

/-- C4 witness: three duplicates of key `[1]` spanning batch boundaries of a
two-row buffer are all deleted/updated, count 3. -/
theorem c4_duplicates_witness :
    (flat_file_delete dup3_store [1]).1 =
      ⟨IonErr.err_ok, numMatches dup3_store [1]⟩ ∧
    (flat_file_delete dup3_store [1]).2.rows = tombstoned dup3_store [1] ∧
    (flat_file_update dup3_store [1] [99]).1 =
      ⟨IonErr.err_ok, numMatches dup3_store [1]⟩ ∧
    (flat_file_update dup3_store [1] [99]).2.rows =
      rewritten dup3_store [1] [99] ∧
    numMatches dup3_store [1] = 3 := by
  have h := flat_file_delete_update_all_matches dup3_store [1] [99] rfl
    (by decide)
  exact ⟨h.1, h.2.1, h.2.2.1, h.2.2.2, by decide⟩

/-- C5: when no occupied row's key compares equal to `key`, Update is exactly
Insert — same status and same final store — and its outcome is never a plain
item-not-found. -/
theorem flat_file_update_upsert_law (f : FlatFile) (key value : List Nat)
    (hs : f.sorted_mode = false) (h0 : numMatches f key = 0) :
    flat_file_update f key value = flat_file_insert f key value ∧
    (flat_file_update f key value).1.error ≠ IonErr.err_item_not_found := by
  have h := flat_file_update_upsert f key value hs h0
  refine ⟨h, ?_⟩
  rw [h, flat_file_insert_eq]
  show IonErr.err_ok ≠ IonErr.err_item_not_found
  decide

/-- C5 witness: updating the absent key `[3]` in the witness store is its
insert. -/
theorem c5_upsert_witness :
    flat_file_update wit_store [3] [7] = flat_file_insert wit_store [3] [7] ∧
    (flat_file_update wit_store [3] [7]).1.error ≠
      IonErr.err_item_not_found :=
  flat_file_update_upsert_law wit_store [3] [7] rfl (by decide)

/-- C6 (amended): with at least one match, Update rewrites every matching row
to `⟨OCCUPIED, key, value⟩` — the *target* key overwrites the stored key
bytes — and leaves every other row untouched; the stored key bytes are
unchanged precisely when the store's comparator only equates identical byte
lists (then the overwriting key equals the old one), which fails for coarser
comparators (see the counterexample). -/
theorem flat_file_update_rewrites_matches (f : FlatFile)
    (key value : List Nat) (hs : f.sorted_mode = false)
    (hN : 0 < numMatches f key) :
    (flat_file_update f key value).2.rows =
      f.rows.map (fun row =>
        if flat_file_predicate_key_match f row key then
          (⟨RowStatus.occupied, key, value⟩ : Row)
        else row) ∧
    ((∀ a b, f.compare a b = 0 → a = b) →
      ∀ row ∈ f.rows, flat_file_predicate_key_match f row key = true →
        row.key = key) := by
  constructor
  · rw [flat_file_update_post f key value hs hN]
    rfl
  · intro hinj row hrow hmatch
    rw [flat_file_predicate_key_match] at hmatch
    simp only [Bool.and_eq_true, beq_iff_eq] at hmatch
    exact (hinj _ _ hmatch.2).symm

/-- C6 counterexample: under an all-equal comparator, updating with key `[2]`
rewrites the matched row's stored key bytes from `[1]` to `[2]` — the key
bytes are not unchanged for every comparator. -/
theorem c6_key_bytes_overwritten :
    (flat_file_update coarse_store [2] [9]).2.rows =
      [⟨RowStatus.occupied, [2], [9]⟩] ∧
    coarse_store.rows = [⟨RowStatus.occupied, [1], [5]⟩] ∧
    ([2] : List Nat) ≠ [1] := by
  refine ⟨?_, rfl, by decide⟩
  rw [flat_file_update_post coarse_store [2] [9] rfl (by decide)]
  rfl

/-- C6 witness: with the byte-wise comparator the rewritten key bytes equal
the stored ones. -/
theorem c6_frame_witness :
    (flat_file_update wit_store [1] [99]).2.rows =
      wit_store.rows.map (fun row =>
        if flat_file_predicate_key_match wit_store row [1] then
          (⟨RowStatus.occupied, [1], [99]⟩ : Row)
        else row) ∧
    ((∀ a b, wit_store.compare a b = 0 → a = b) →
      ∀ row ∈ wit_store.rows,
        flat_file_predicate_key_match wit_store row [1] = true →
          row.key = [1]) :=
  flat_file_update_rewrites_matches wit_store [1] [99] rfl (by decide)

/-- C7: a scan in either direction from the sentinel or any in-range start
whose examined rows all fail the predicate returns the distinguished
`err_file_hit_eof` status, and the location it reports is the total row
count, one past the last valid row — for backward scans as well, since line
266 computes the fall-through location from `eof_pos`. -/
theorem flat_file_scan_no_match_hits_eof (f : FlatFile)
    (start_location : Int) (scan_forwards : Bool) (p : Row → Bool)
    (hval : start_location = -1 ∨
      (0 ≤ start_location ∧ start_location ≤ (f.rows.length : Int)))
    (hnm : ∀ i, i < f.rows.length →
      (if scan_forwards then
        (resolved_start f start_location scan_forwards).toNat ≤ i
       else i < (resolved_start f start_location scan_forwards).toNat) →
      p (f.rows.getD i default) = false) :
    flat_file_scan f start_location scan_forwards p =
      ScanResult.hitEof f.rows.length := by
  cases scan_forwards with
  | true =>
      rw [flat_file_scan_forward_eq f p start_location hval]
      have hres : (resolved_start f start_location true).toNat =
          start_location.toNat := by
        rw [resolved_start]
        rcases hval with hv | hv
        · subst hv; rfl
        · rw [if_neg (by omega)]
      have hbf : batchFind p (f.rows.drop start_location.toNat) = none := by
        rw [batchFind_eq_none]
        intro r hr
        obtain ⟨j, hj, hjr⟩ := List.mem_iff_getElem.mp hr
        have hjl : start_location.toNat + j < f.rows.length := by
          simp only [List.length_drop] at hj; omega
        have hgd : f.rows.getD (start_location.toNat + j) default = r := by
          rw [← getD_drop, getD_of_lt _ _ hj]
          exact hjr
        rw [← hgd]
        exact hnm _ hjl (by rw [if_pos rfl, hres]; omega)
      rw [hbf]
  | false =>
      rw [flat_file_scan]
      have hres0 : 0 ≤ resolved_start f start_location false ∧
          resolved_start f start_location false ≤ (f.rows.length : Int) := by
        rw [resolved_start]
        rcases hval with hv | hv
        · subst hv
          rw [if_pos rfl]
          constructor <;> simp
        · rw [if_neg (by omega)]
          exact hv
      rw [if_neg (by omega)]
      rw [if_neg (by simp)]
      exact scanBackwardAux_no_match f p _ (by omega)
        (fun i hi => hnm i (by omega) (by rw [if_neg (by simp)]; exact hi))

/-- C7 witness: a forward scan of the two-row witness store with a predicate
failing everywhere hits end of data at location 2 (the row count). -/
theorem c7_hits_eof_witness :
    flat_file_scan wit_store (-1) true
        (fun row => flat_file_predicate_key_match wit_store row [3]) =
      ScanResult.hitEof wit_store.rows.length :=
  flat_file_scan_no_match_hits_eof wit_store (-1) true
    (fun row => flat_file_predicate_key_match wit_store row [3])
    (Or.inl rfl)
    (by
      intro i hi _
      rw [show wit_store.rows.length = 2 from rfl] at hi
      have h01 : i = 0 ∨ i = 1 := by omega
      rcases h01 with h | h <;> subst h <;> decide)

/-- C8: Get scans forward from the natural start with the exact-key
predicate; with at least one match it returns count 1 and the value bytes of
the lowest-index matching row, and with no match the scanner's hit-end is
reported as `err_item_not_found` with count 0; the store is unchanged. -/
theorem flat_file_get_first_match (f : FlatFile) (key : List Nat)
    (hs : f.sorted_mode = false) :
    ((∀ m, m < f.rows.length →
        flat_file_predicate_key_match f (f.rows.getD m default) key = true →
        (∀ j, j < m →
          flat_file_predicate_key_match f (f.rows.getD j default) key =
            false) →
        flat_file_get f key =
          (⟨IonErr.err_ok, 1⟩, some (f.rows.getD m default).value, f)) ∧
     (numMatches f key = 0 →
        flat_file_get f key = (⟨IonErr.err_item_not_found, 0⟩, none, f))) :=
  ⟨fun m hm hp hlow => flat_file_get_found f key hs m hm hp hlow,
   fun h0 => flat_file_get_not_found f key hs h0⟩

/-- C8 witness: getting key `[2]` from the witness store returns row 1's
value. -/
theorem c8_get_witness :
    flat_file_get wit_store [2] =
      (⟨IonErr.err_ok, 1⟩, some (wit_store.rows.getD 1 default).value,
        wit_store) :=
  (flat_file_get_first_match wit_store [2] rfl).1 1 (by decide) (by decide)
    (by
      intro j hj
      have hj0 : j = 0 := Nat.lt_one_iff.mp hj
      subst hj0
      decide)

/-- C9: deleting an absent key reports `err_item_not_found` with count 0 and
leaves every row unchanged; after a successful delete (at least one match),
a get of the same key on the resulting store reports item-not-found. -/
theorem flat_file_delete_absent_and_get_after (f : FlatFile)
    (key : List Nat) (hs : f.sorted_mode = false) :
    ((numMatches f key = 0 →
        (flat_file_delete f key).1 = ⟨IonErr.err_item_not_found, 0⟩ ∧
        (flat_file_delete f key).2.rows = f.rows) ∧
     (0 < numMatches f key →
        (flat_file_delete f key).1.error = IonErr.err_ok ∧
        (flat_file_get (flat_file_delete f key).2 key).1 =
          ⟨IonErr.err_item_not_found, 0⟩)) := by
  constructor
  · intro h0
    constructor
    · rw [flat_file_delete_status f key hs, if_pos h0, h0]
    · rw [flat_file_delete_post f key hs]
      show tombstoned f key = f.rows
      rw [tombstoned]
      apply map_id_of_eq
      intro r hr
      rw [numMatches] at h0
      rw [if_neg]
      simp [List.countP_eq_zero.mp h0 r hr]
  · intro hN
    constructor
    · rw [flat_file_delete_status f key hs, if_neg (by omega)]
    · rw [flat_file_delete_post f key hs]
      rw [flat_file_get_not_found { f with rows := tombstoned f key } key hs
        (numMatches_tombstoned f key)]
  
/-- C9 witness: deleting the absent key `[3]` mutates nothing, and after
deleting key `[1]` a get of `[1]` is not found. -/
theorem c9_delete_witness :
    ((flat_file_delete wit_store [3]).1 = ⟨IonErr.err_item_not_found, 0⟩ ∧
      (flat_file_delete wit_store [3]).2.rows = wit_store.rows) ∧
    ((flat_file_delete wit_store [1]).1.error = IonErr.err_ok ∧
      (flat_file_get (flat_file_delete wit_store [1]).2 [1]).1 =
        ⟨IonErr.err_item_not_found, 0⟩) :=
  ⟨(flat_file_delete_absent_and_get_after wit_store [3] rfl).1 (by decide),
   (flat_file_delete_absent_and_get_after wit_store [1] rfl).2 (by decide)⟩

/-- C10: Get never mutates the store — on success, item-not-found and error
paths alike, the store (in particular every row of the backing file and the
row count) comes back exactly as it went in: `flat_file_get` only scans and
copies the value out; it contains no write call. -/
theorem flat_file_get_preserves_store (f : FlatFile) (key : List Nat) :
    (flat_file_get f key).2.2 = f ∧
    (flat_file_get f key).2.2.rows = f.rows ∧
    (flat_file_get f key).2.2.rows.length = f.rows.length := by
  refine ⟨?_, ?_, ?_⟩ <;>
  · rw [flat_file_get]
    split
    · rfl
    · split <;> rfl
